import Mathlib

set_option maxHeartbeats 1000000

namespace Onmod

/-- Stage of a pipeline, onmod.py lines 169-181 (class Command): the argv token
list and the required flag (default False in the source constructor). -/
structure Command where
  args : List String
  required : Bool
deriving DecidableEq

/-- Python truthiness of a Command instance. The source class Command(object)
defines neither a bool nor a len method, so every instance is truthy and the
test `if not cmd` in Runner.run_once (onmod.py line 220) is always False. -/
def command_truthy (_c : Command) : Bool := true

/-- Outcome of one attempted stage execution, as observed by
Runner.execute_command (onmod.py lines 227-253): subprocess.Popen may raise
FileNotFoundError, may raise another OSError, or the process runs and
self.proc.wait() returns an exit code; in the last case the stored handle
self.proc may or may not have been cleared concurrently by the kill() method
before the wait return is processed (lines 248-252). -/
inductive ExecOutcome where
  | spawnMissing : ExecOutcome
  | spawnOsError : ExecOutcome
  | finished (code : Int) (procClearedByKill : Bool) : ExecOutcome
deriving DecidableEq

/-- Runner.execute_command, onmod.py lines 227-253. FileNotFoundError is caught
first and returns False; any other OSError returns False when the command is
required and True otherwise (line 242, continue processing other commands);
when wait() returns, if self.proc was cleared by kill() the method returns
False (lines 249-251), otherwise the result is whether the exit code is 0. -/
def execute_command (cmd : Command) (o : ExecOutcome) : Bool :=
  match o with
  | .spawnMissing => false
  | .spawnOsError => if cmd.required then false else true
  | .finished ret cleared => if cleared then false else ret == 0

/-- Banners emitted by logTime, onmod.py lines 148-166: the first component is
whether the FAILED banner is printed (`if exit_status`, Python truthiness of
the integer, i.e. exit status non-zero); the second is whether the banner
CLEAN EXIT STATUS REQUIRED / NEXT COMMAND WILL NOT EXECUTE is printed
(`if exit_status and required`, lines 161-164). -/
def logTime_banners (exit_status : Int) (required : Bool) : Bool × Bool :=
  (exit_status != 0, (exit_status != 0) && required)

/-- Body of the loop in Runner.run_once, onmod.py lines 217-225, instrumented
with a trace. The loop walks the stages in order; `if not cmd: continue` is
translated through command_truthy (always true, see there); each non-skipped
stage is echoed via cmd.print() and then executed, and the pass success flag
is the conjunction of the stage results. The trace records, in order, every
stage that was echoed and executed together with its result; `i` numbers the
executed stages so that the environment can assign each its outcome. -/
def run_once_aux (env : Nat → ExecOutcome) : List Command → Nat → Bool × List (Command × Bool)
  | [], _ => (true, [])
  | c :: rest, i =>
    if command_truthy c = false then
      run_once_aux env rest i
    else
      let result := execute_command c (env i)
      let res := run_once_aux env rest (i + 1)
      (result && res.1, (c, result) :: res.2)

/-- Runner.run_once, onmod.py lines 217-225: success starts True and is
conjoined with every executed stage result; all stages run (there is no early
exit). Returns the final success flag and the execution trace. The source
annotates the return as Optional[bool], but every path yields a bool. -/
def run_once (cmds : List Command) (env : Nat → ExecOutcome) : Bool × List (Command × Bool) :=
  run_once_aux env cmds 0

/-- Retry loop of Runner.run, onmod.py lines 255-268, instrumented to return
the list of pass results in order. The source increments `attempt` at the top
of each iteration and runs a pass while attempt < max_retries; a fully
successful pass breaks out unless loop is set; when loop is set the source
executes the statement spelled attempts = 0 (line 265), which binds a fresh
local name and leaves `attempt` untouched, so the counter is never actually
reset (the unused binding below mirrors it); the `elif success is None` break
is unreachable because run_once always returns a bool. Since `attempt` thus
grows by exactly one on every path through the loop body, the quantity
max_retries - attempt decreases by one per iteration and the recursion is
phrased structurally on that measure, passed as `remaining`. `envs a s` is
the outcome of stage `s` during the pass run when the counter had value `a`
before its increment. -/
def run_aux (cmds : List Command) (loopF : Bool) (envs : Nat → Nat → ExecOutcome) :
    (remaining : Nat) → (attempt : Nat) → List (Bool × List (Command × Bool))
  | 0, _ => []
  | remaining + 1, attempt =>
    let res := run_once cmds (envs attempt)
    if res.1 then
      if loopF then
        let _attempts : Nat := 0
        res :: run_aux cmds loopF envs remaining (attempt + 1)
      else
        [res]
    else
      res :: run_aux cmds loopF envs remaining (attempt + 1)

/-- Runner.run, onmod.py lines 255-270, starting with attempt = 0 (so the
remaining-iteration budget is max_retries). The completion callback performs
no state change that the claims mention and is not modelled. -/
def Runner.run (cmds : List Command) (max_retries : Nat) (loopF : Bool)
    (envs : Nat → Nat → ExecOutcome) : List (Bool × List (Command × Bool)) :=
  run_aux cmds loopF envs max_retries 0

/-- The single-quote character, built by code point to keep the development
free of quote literals. -/
def squote : Char := Char.ofNat 39

/-- One-character string holding squote. -/
def squoteS : String := String.mk [squote]

/-- Characters considered safe by shlex.quote (CPython _find_unsafe, ASCII
word characters plus at-sign, percent, plus, equals, colon, comma, dot,
slash and dash). -/
def shlex_safe_char (c : Char) : Bool :=
  (Char.ofNat 97 ≤ c && c ≤ Char.ofNat 122) ||
  (Char.ofNat 65 ≤ c && c ≤ Char.ofNat 90) ||
  (Char.ofNat 48 ≤ c && c ≤ Char.ofNat 57) ||
  c ∈ ([Char.ofNat 95, Char.ofNat 64, Char.ofNat 37, Char.ofNat 43, Char.ofNat 61,
        Char.ofNat 58, Char.ofNat 44, Char.ofNat 46, Char.ofNat 47, Char.ofNat 45] : List Char)

/-- shlex.quote from the Python standard library, as called by
process_commands (onmod.py line 316): the empty string quotes to two single
quotes; a string of safe characters is returned unchanged; otherwise every
embedded single quote is replaced by quote, double quote, quote, double
quote, quote, and the whole string is wrapped in single quotes. -/
def shlex_quote (s : String) : String :=
  if s = "" then squoteS ++ squoteS
  else if s.toList.all shlex_safe_char then s
  else squoteS ++ (s.replace squoteS (squoteS ++ "\"" ++ squoteS ++ "\"" ++ squoteS)) ++ squoteS

/-- Lexicographic order on character lists by code point, the order Python
sorted() applies to strings. Defined by structural recursion so that concrete
instances reduce inside the kernel. -/
def charListLe : List Char → List Char → Bool
  | [], _ => true
  | _ :: _, [] => false
  | a :: as, b :: bs =>
    if a.toNat < b.toNat then true
    else if b.toNat < a.toNat then false
    else charListLe as bs

/-- The Python string order, as a proposition. -/
def pyLe (a b : String) : Prop := charListLe a.toList b.toList = true

instance : DecidableRel pyLe := fun a b => by
  unfold pyLe
  infer_instance

theorem charListLe_total : ∀ as bs, charListLe as bs = true ∨ charListLe bs as = true
  | [], _ => Or.inl rfl
  | _ :: _, [] => Or.inr rfl
  | a :: as, b :: bs => by
    rcases Nat.lt_trichotomy a.toNat b.toNat with h | h | h
    · exact Or.inl (by simp [charListLe, h])
    · rcases charListLe_total as bs with ih | ih
      · exact Or.inl (by simp [charListLe, h, ih])
      · exact Or.inr (by simp [charListLe, h.symm, ih])
    · exact Or.inr (by simp [charListLe, h])

theorem charListLe_antisymm : ∀ as bs, charListLe as bs = true → charListLe bs as = true → as = bs
  | [], [], _, _ => rfl
  | [], _ :: _, _, h => by simp [charListLe] at h
  | _ :: _, [], h, _ => by simp [charListLe] at h
  | a :: as, b :: bs, h1, h2 => by
    rcases Nat.lt_trichotomy a.toNat b.toNat with h | h | h
    · simp [charListLe, h, Nat.lt_asymm h] at h2
    · have hab : a = b := Char.eq_of_val_eq (by
        apply UInt32.eq_of_val_eq
        apply Fin.ext
        exact h)
      subst hab
      simp only [charListLe, lt_irrefl, if_false] at h1 h2
      rw [charListLe_antisymm as bs h1 h2]
    · simp [charListLe, h, Nat.lt_asymm h] at h1

theorem charListLe_trans :
    ∀ as bs cs, charListLe as bs = true → charListLe bs cs = true → charListLe as cs = true
  | [], _, _, _, _ => rfl
  | _ :: _, [], _, h, _ => by simp [charListLe] at h
  | _ :: _, _ :: _, [], _, h => by simp [charListLe] at h
  | a :: as, b :: bs, c :: cs, h1, h2 => by
    simp only [charListLe] at h1 h2 ⊢
    rcases Nat.lt_trichotomy a.toNat b.toNat with hab | hab | hab
    · rcases Nat.lt_trichotomy b.toNat c.toNat with hbc | hbc | hbc
      · simp [Nat.lt_trans hab hbc]
      · simp [show a.toNat < c.toNat from hbc ▸ hab]
      · simp [show ¬ b.toNat < c.toNat by omega, hbc] at h2
    · rcases Nat.lt_trichotomy b.toNat c.toNat with hbc | hbc | hbc
      · simp [show a.toNat < c.toNat from hab ▸ hbc]
      · have h1' : charListLe as bs = true := by
          simpa [show ¬ a.toNat < b.toNat by omega, show ¬ b.toNat < a.toNat by omega] using h1
        have h2' : charListLe bs cs = true := by
          simpa [show ¬ b.toNat < c.toNat by omega, show ¬ c.toNat < b.toNat by omega] using h2
        simpa [show ¬ a.toNat < c.toNat by omega, show ¬ c.toNat < a.toNat by omega] using
          charListLe_trans as bs cs h1' h2'
      · simp [show ¬ b.toNat < c.toNat by omega, hbc] at h2
    · simp [show ¬ a.toNat < b.toNat by omega, hab] at h1

instance : IsTotal String pyLe := ⟨fun a b => charListLe_total a.toList b.toList⟩

instance : IsTrans String pyLe :=
  ⟨fun a b c h1 h2 => charListLe_trans a.toList b.toList c.toList h1 h2⟩

instance : IsAntisymm String pyLe := by
  constructor
  intro a b h1 h2
  have h := charListLe_antisymm a.toList b.toList h1 h2
  cases a
  cases b
  simpa [String.toList] using congrArg String.mk h

/-- Python sorted() on a list of strings: insertion sort by code-point order
(a stable, comparison-based sort; for a set of strings the result is the
unique ordered arrangement, so the algorithm choice is immaterial). -/
def pySorted (l : List String) : List String := List.insertionSort pyLe l

theorem pySorted_perm_congr (a b : List String) (p : a.Perm b) : pySorted a = pySorted b :=
  List.eq_of_perm_of_sorted
    (((List.perm_insertionSort pyLe a).trans p).trans (List.perm_insertionSort pyLe b).symm)
    (List.sorted_insertionSort pyLe a) (List.sorted_insertionSort pyLe b)

/-- Python sorted() applied to a set of strings, as in sorted(diff_files)
(onmod.py line 316): the elements in code-point order. -/
def sortedStrings (d : Finset String) : List String :=
  Quotient.lift pySorted (fun a b p => pySorted_perm_congr a b p) d.val

/-- The sequencing operator tokens recognized by process_commands
(onmod.py line 312). -/
def seq_ops : List String := ["&&", "||", ";"]

/-- The flag values consumed by the core (a slice of the argparse.Namespace
built in define_flags, onmod.py lines 29-133): the command template, the
substitution token (flag -s, default the two-character brace pair), and the
wait / kill / loop / max_retries policies. -/
structure Args where
  cmd : List String
  sub : String
  wait : Bool
  kill : Bool
  loop : Bool
  max_retries : Nat
deriving DecidableEq

/-- One step of the token scan in process_commands (onmod.py lines 311-318).
The accumulator holds the finished stages and the tokens of the stage being
built; `sq` is the expansion of the substitution token, namely the sorted
changed files each passed through shlex.quote (line 316). An operator token
closes the current stage with required true exactly for the double ampersand;
the substitution token splices in `sq`; any other token is appended. -/
def pc_step (sub : String) (sq : List String)
    (acc : List Onmod.Command × List String) (c : String) : List Onmod.Command × List String :=
  if c ∈ seq_ops then (acc.1 ++ [⟨acc.2, c == "&&"⟩], [])
  else if c = sub then (acc.1, acc.2 ++ sq)
  else (acc.1, acc.2 ++ [c])

/-- Final step of process_commands (onmod.py lines 319-320): a non-empty
trailing stage is appended with required False (the source constructor call
passes required=False). -/
def pc_finish (acc : List Onmod.Command × List String) : List Onmod.Command :=
  if acc.2 = [] then acc.1 else acc.1 ++ [⟨acc.2, false⟩]

/-- process_commands, onmod.py lines 308-321: scan the template tokens left to
right with pc_step and close the trailing stage with pc_finish. diff_files is
the set of changed paths handed over by main. -/
def process_commands (args : Args) (diff_files : Finset String) : List Onmod.Command :=
  pc_finish (args.cmd.foldl
    (pc_step args.sub ((sortedStrings diff_files).map shlex_quote)) ([], []))

/-- A Python dict from path to mtime, modelled as an insertion-ordered
association list with unique keys (uniqueness is stated as a hypothesis where
a proof needs it). Timestamps are modelled as integers; the source only ever
compares them for equality. -/
abbrev MTimes := List (String × Int)

/-- The key list of a dict, in insertion order. -/
def dictKeys (m : MTimes) : List String := m.map Prod.fst

/-- Dict lookup: the value at the first matching key, if any. -/
def dictGet? (m : MTimes) (k : String) : Option Int :=
  match m with
  | [] => none
  | (k0, v) :: rest => if k0 = k then some v else dictGet? rest k

/-- Dict assignment m[k] = v: overwrite in place, else append at the end. -/
def dictSet (m : MTimes) (k : String) (v : Int) : MTimes :=
  match m with
  | [] => [(k, v)]
  | (k0, v0) :: rest => if k0 = k then (k0, v) :: rest else (k0, v0) :: dictSet rest k v

/-- Python del m[k]: drop the entry with the given key. -/
def dictDel (m : MTimes) (k : String) : MTimes :=
  match m with
  | [] => []
  | (k0, v0) :: rest => if k0 = k then rest else (k0, v0) :: dictDel rest k

/-- The per-path consecutive-stat-failure counters, a
collections.defaultdict(int): lookup of an absent key yields 0. -/
def countGet (fl : List (String × Nat)) (f : String) : Nat :=
  match fl with
  | [] => 0
  | (k, v) :: rest => if k = f then v else countGet rest f

/-- failed[f] += 1 on a defaultdict(int): bump the first entry for the key in
place, or append a fresh entry with value 1. -/
def countBump (fl : List (String × Nat)) (f : String) : List (String × Nat) :=
  match fl with
  | [] => [(f, 1)]
  | (k, v) :: rest => if k = f then (k, v + 1) :: rest else (k, v) :: countBump rest f

/-- handle_diff, onmod.py lines 303-305: the symmetric difference of the two
item sets, returned as the Python pair bool(diff) and the set of first
components of the differing items. -/
def handle_diff (mtimes sf : MTimes) : Bool × Finset String :=
  let d := symmDiff mtimes.toFinset sf.toFinset
  (decide (d ≠ ∅), d.image Prod.fst)

/-- The dict comprehension new_mtimes (onmod.py line 368): stat every watched
path in insertion order; the first failing stat raises OSError carrying that
path as filename, which aborts the whole comprehension. `stat` is the
filesystem oracle for this poll cycle (none models an OSError). -/
def poll_mtimes (stat : String → Option Int) : MTimes → Except String MTimes
  | [] => .ok []
  | (f, _) :: rest =>
    match stat f with
    | none => .error f
    | some t => (poll_mtimes stat rest).map (fun nm => (f, t) :: nm)

/-- handle_removed_files, onmod.py lines 324-327: every removed path is put
back into mtimes with timestamp 0 and the removed set is cleared. The Python
set iteration order is unspecified; the code-point sorted order is fixed
here, which determines only the insertion order of the rebuilt dict, not its
contents. -/
def handle_removed_files (mtimes : MTimes) (removed : Finset String) : MTimes × Finset String :=
  ((sortedStrings removed).foldl (fun m f => dictSet m f 0) mtimes, ∅)

/-- The mutable locals of main that the watch loop reads and writes
(onmod.py lines 345-362): the watched dict, the failure counters, the removed
set, the trigger bookkeeping and the two interactive flags. -/
structure WatchState where
  mtimes : MTimes
  failed : List (String × Nat)
  removed : Finset String
  diff_detected : Bool
  diff_files : Finset String
  previous_diff_files : Finset String
  force : Bool
  disp_msg : Bool
  first : Bool
deriving DecidableEq

/-- The except OSError handler, onmod.py lines 415-422: the failing filename
counter is bumped; when it reaches 10 the path is deleted from mtimes and
added to the removed set. os.stat errors always carry a filename, so the
`if e.filename` guard is always taken. -/
def watch_on_error (s : WatchState) (f : String) : WatchState :=
  let failed := countBump s.failed f
  if countGet failed f ≥ 10 then
    { s with failed := failed, mtimes := dictDel s.mtimes f, removed := insert f s.removed }
  else
    { s with failed := failed }

/-- The try body after a fully successful poll, onmod.py lines 369-414: diff
against the stored mtimes, optionally replay the previous diff set when
forced, record a detected diff, and fire a trigger (returning the pipeline
handed to the new Runner) when a diff is pending and the wait policy does not
ask for another settle cycle; the failure counters are reset at the end. -/
def watch_on_ok (args : Args) (s : WatchState) (new_mtimes : MTimes) :
    WatchState × Option (List Onmod.Command) :=
  let d0 := handle_diff s.mtimes new_mtimes
  let d1 := if s.force && !d0.1 then ((true : Bool), s.previous_diff_files) else d0
  let s1 :=
    if d1.1 then
      { s with first := false, mtimes := new_mtimes, diff_detected := true,
               diff_files := s.diff_files ∪ d1.2 }
    else s
  let st :=
    if s1.diff_detected && !(d1.1 && args.wait) then
      ({ s1 with previous_diff_files := s1.diff_files, diff_files := (∅ : Finset String),
                 diff_detected := false },
       some (process_commands args s1.diff_files))
    else (s1, none)
  ({ st.1 with failed := [] }, st.2)

/-- The try/except of one loop iteration, onmod.py lines 367-422. -/
def watch_try (args : Args) (stat : String → Option Int) (s : WatchState) :
    WatchState × Option (List Onmod.Command) :=
  match poll_mtimes stat s.mtimes with
  | .error f => (watch_on_error s f, none)
  | .ok new_mtimes => watch_on_ok args s new_mtimes

/-- The tail of one loop iteration, onmod.py lines 423-438: force is cleared,
the no-more-files notice flag is raised when the watch dict is empty, and an
operator keypress reinstates the removed paths (only when the watch dict is
empty and the removed set is not), schedules a forced trigger and lowers the
notice flag. -/
def watch_post (enter : Bool) (s : WatchState) : WatchState :=
  let s1 := { s with force := false }
  let s2 := if s1.mtimes.isEmpty && !s1.disp_msg then { s1 with disp_msg := true } else s1
  if enter then
    let s3 :=
      if s2.mtimes = [] ∧ s2.removed ≠ ∅ then
        let mr := handle_removed_files s2.mtimes s2.removed
        { s2 with mtimes := mr.1, removed := mr.2 }
      else s2
    { s3 with force := true, disp_msg := false }
  else s2

/-- One full iteration of the while True loop of main, onmod.py lines 366-438.
`enter` tells whether the select on stdin reported an operator keypress this
cycle. The returned option is the pipeline handed to a freshly started Runner
this iteration, if a trigger fired. -/
def watch_iter (args : Args) (stat : String → Option Int) (enter : Bool) (s : WatchState) :
    WatchState × Option (List Onmod.Command) :=
  let r := watch_try args stat s
  (watch_post enter r.1, r.2)

/-- Iterated watch cycles with a fixed filesystem oracle and no keypress. -/
def iterate_watch (args : Args) (stat : String → Option Int) : Nat → WatchState → WatchState
  | 0, s => s
  | n + 1, s => iterate_watch args stat n (watch_iter args stat false s).1

/-- The sequencing-operator tokens of a template, in order. -/
def opsOf (ts : List String) : List String := ts.filter (fun t => decide (t ∈ seq_ops))

/-- Stage outcomes for the claim C1 scenario: the first spawned stage exits 1,
every later one exits 0, nothing is killed. -/
def c1_env : Nat → ExecOutcome := fun i => if i = 0 then .finished 1 false else .finished 0 false

/-- Pass environments for the claim C2 scenario: during the first pass the
process handle is cleared by kill() before the wait return is processed;
during later passes the stage simply exits 0. -/
def c2_envs : Nat → Nat → ExecOutcome :=
  fun a _ => if a = 0 then .finished 0 true else .finished 0 false

/-- Pass environments for the claim C4 scenario: every stage of every pass
exits 0, so every pass fully succeeds. -/
def c4_envs : Nat → Nat → ExecOutcome := fun _ _ => .finished 0 false

/-- Stage outcomes for the claim C6 scenario: every spawned stage exits 0. -/
def c6_env : Nat → ExecOutcome := fun _ => .finished 0 false

/-- Flags for the watcher scenarios: a one-token template, the default
substitution token, and every policy off. -/
def wargs : Args := ⟨["echo"], "\x7b\x7d", false, false, false, 1⟩

/-- Filesystem oracle for the claim C7 scenario: the stat of path a fails,
every other stat yields mtime 5. -/
def wstat7 : String → Option Int := fun q => if q = "a" then none else some 5

/-- Watch state for the claim C7 scenario: two watched paths a and b with
stored mtime 0, no failures, nothing removed, no pending diff. -/
def wstate7 : WatchState := ⟨[("a", 0), ("b", 0)], [], ∅, false, ∅, ∅, false, false, true⟩

/-- Watch state for the claim C8 reinstatement witness: nothing watched, one
removed path. -/
def wstate8 : WatchState := ⟨[], [], {"a"}, false, ∅, ∅, false, false, true⟩

theorem run_aux_cons_of_fail (cmds : List Command) (loopF : Bool)
    (envs : Nat → Nat → ExecOutcome) (remaining attempt : Nat)
    (h : (run_once cmds (envs attempt)).1 = false) :
    run_aux cmds loopF envs (remaining + 1) attempt
      = run_once cmds (envs attempt) :: run_aux cmds loopF envs remaining (attempt + 1) := by
  simp [run_aux, h]

theorem run_aux_all_fail (cmds : List Command) (envs : Nat → Nat → ExecOutcome)
    (hfail : ∀ i, (run_once cmds (envs i)).1 = false) :
    ∀ remaining attempt, (run_aux cmds false envs remaining attempt).length = remaining
      ∧ ∀ r ∈ run_aux cmds false envs remaining attempt, r.1 = false := by
  intro remaining
  induction remaining with
  | zero => exact fun attempt => ⟨rfl, by simp [run_aux]⟩
  | succ n ih =>
    intro attempt
    rw [run_aux_cons_of_fail cmds false envs n attempt (hfail attempt)]
    refine ⟨by simp [(ih (attempt + 1)).1], ?_⟩
    intro r hr
    rcases List.mem_cons.mp hr with h | h
    · rw [h]; exact hfail attempt
    · exact (ih (attempt + 1)).2 r h

/-- Claim C1: the claim states that when a required stage exits non-zero the
pass aborts and no later stage runs. The code itself documents that intent
(the logTime banner NEXT COMMAND WILL NOT EXECUTE is printed exactly when a
required stage exits non-zero) but Runner.run_once has no early exit: on the
claim scenario, build.sh required and exiting 1, the trace shows deploy.sh is
echoed and executed afterwards, and only the aggregate pass flag is false. -/
theorem c1_required_stage_failure_does_not_abort :
    process_commands ⟨["build.sh", "&&", "deploy.sh"], "\x7b\x7d", false, false, false, 1⟩ ∅
        = [⟨["build.sh"], true⟩, ⟨["deploy.sh"], false⟩]
    ∧ (logTime_banners 1 true).2 = true
    ∧ (run_once [⟨["build.sh"], true⟩, ⟨["deploy.sh"], false⟩] c1_env).2.map
        (fun r => (r.1.args, r.2)) = [(["build.sh"], false), (["deploy.sh"], true)]
    ∧ (run_once [⟨["build.sh"], true⟩, ⟨["deploy.sh"], false⟩] c1_env).1 = false := by
  decide

/-- Claim C2: the claim states that a pass whose stage was stopped (the
process handle cleared by kill before the wait return is processed) ends the
retry loop at once, with no further pass. In the code the stage is indeed
reported as failed rather than by its exit code (first conjunct: exit code 0
yet result False), but run_once returns plain False, the Optional None branch
of Runner.run is unreachable, and with max_retries 2 a second full pass is
started after the stopped pass (and here even succeeds). -/
theorem c2_stopped_pass_is_retried :
    execute_command ⟨["sleep", "10"], false⟩ (ExecOutcome.finished 0 true) = false
    ∧ (Runner.run [⟨["sleep", "10"], false⟩] 2 false c2_envs).length = 2
    ∧ (Runner.run [⟨["sleep", "10"], false⟩] 2 false c2_envs).map Prod.fst = [false, true] := by
  decide

/-- Claim C4: the claim states that with the loop policy set and every pass
succeeding, the attempt counter is reset and more than N passes occur for
every N. In the code the reset statement binds the misspelled name attempts,
so the counter keeps growing and the loop performs exactly max_retries
passes: with max_retries 1 a single fully successful pass is run and the
Runner stops, and with max_retries 3 exactly three passes run. -/
theorem c4_loop_never_resets_attempt_counter :
    (Runner.run [⟨["true"], false⟩] 1 true c4_envs).length = 1
    ∧ (Runner.run [⟨["true"], false⟩] 1 true c4_envs).map Prod.fst = [true]
    ∧ (Runner.run [⟨["true"], false⟩] 3 true c4_envs).length = 3 := by
  decide

/-- Claim C5: with max_retries N at least 1, loop off, and every pass
failing, Runner.run performs exactly N passes and every pass (in particular
the last) reports failure. -/
theorem c5_retry_bound_exact_passes (cmds : List Command) (N : Nat)
    (envs : Nat → Nat → ExecOutcome) (_hN : 1 ≤ N)
    (hfail : ∀ i, (run_once cmds (envs i)).1 = false) :
    (Runner.run cmds N false envs).length = N
      ∧ ∀ r ∈ Runner.run cmds N false envs, r.1 = false :=
  run_aux_all_fail cmds envs hfail N 0

/-- Witness for claim C5 at a concrete input: one always-failing stage,
max_retries 2. -/
theorem c5_retry_bound_exact_passes_witness :
    (Runner.run [⟨["false"], false⟩] 2 false (fun _ _ => ExecOutcome.finished 1 false)).length = 2
      ∧ ∀ r ∈ Runner.run [⟨["false"], false⟩] 2 false (fun _ _ => ExecOutcome.finished 1 false),
          r.1 = false :=
  c5_retry_bound_exact_passes [⟨["false"], false⟩] 2 (fun _ _ => ExecOutcome.finished 1 false)
    (by decide) (fun _ => rfl)

/-- Claim C6: the claim states that a stage with zero tokens is skipped with
no spawn and no command echo. The guard `if not cmd` in Runner.run_once can
never skip anything, because a plain-object Command instance is always truthy
in Python; on a pipeline whose first stage is empty (built here from a
template starting with an operator) the trace shows the empty stage is echoed
and executed like any other. -/
theorem c6_empty_stage_is_not_skipped :
    command_truthy ⟨[], true⟩ = true
    ∧ process_commands ⟨["&&", "echo", "hi"], "\x7b\x7d", false, false, false, 1⟩ ∅
        = [⟨[], true⟩, ⟨["echo", "hi"], false⟩]
    ∧ (run_once [⟨[], true⟩, ⟨["echo", "hi"], false⟩] c6_env).2.map Prod.fst
        = [⟨[], true⟩, ⟨["echo", "hi"], false⟩] := by
  decide

theorem pc_fold_extends (sub : String) (sq : List String) :
    ∀ (ts : List String) (cmds : List Command) (cc : List String),
      ts.foldl (pc_step sub sq) (cmds, cc)
        = (cmds ++ (ts.foldl (pc_step sub sq) ([], cc)).1, (ts.foldl (pc_step sub sq) ([], cc)).2)
  | [], cmds, cc => by simp
  | t :: ts, cmds, cc => by
    by_cases h1 : t ∈ seq_ops
    · simp only [List.foldl_cons, pc_step, h1, if_true, List.nil_append]
      rw [pc_fold_extends sub sq ts (cmds ++ [Command.mk cc (t == "&&")]) [],
          pc_fold_extends sub sq ts [Command.mk cc (t == "&&")] []]
      simp
    · by_cases h2 : t = sub
      · simp only [List.foldl_cons, pc_step, if_neg h1, if_pos h2]
        exact pc_fold_extends sub sq ts cmds (cc ++ sq)
      · simp only [List.foldl_cons, pc_step, if_neg h1, if_neg h2]
        exact pc_fold_extends sub sq ts cmds (cc ++ [t])

theorem pc_fold_snd (sub : String) (sq : List String) (ts : List String)
    (acc : List Command × List String) :
    (ts.foldl (pc_step sub sq) acc).2 = (ts.foldl (pc_step sub sq) ([], acc.2)).2 := by
  conv_lhs => rw [show acc = (acc.1, acc.2) from rfl, pc_fold_extends sub sq ts acc.1 acc.2]

theorem pc_finish_append (cmds rest : List Command) (cc : List String) :
    pc_finish (cmds ++ rest, cc) = cmds ++ pc_finish (rest, cc) := by
  unfold pc_finish
  by_cases h : cc = [] <;> simp [h]

theorem pc_required_map (sub : String) (sq : List String) :
    ∀ (ts : List String) (cc : List String),
      (pc_finish (ts.foldl (pc_step sub sq) ([], cc))).map Command.required
        = (opsOf ts).map (fun t => t == "&&")
          ++ (if (ts.foldl (pc_step sub sq) ([], cc)).2 = [] then [] else [false])
  | [], cc => by
    by_cases h : cc = [] <;> simp [pc_finish, opsOf, h]
  | t :: ts, cc => by
    by_cases h1 : t ∈ seq_ops
    · simp only [List.foldl_cons, pc_step, h1, if_true, List.nil_append]
      rw [pc_fold_extends sub sq ts [Command.mk cc (t == "&&")] [], pc_finish_append]
      simp only [List.map_append, List.map_cons, List.map_nil]
      rw [pc_required_map sub sq ts []]
      simp [opsOf, List.filter_cons, h1]
    · by_cases h2 : t = sub
      · simp only [List.foldl_cons, pc_step, if_neg h1, if_pos h2]
        rw [pc_required_map sub sq ts (cc ++ sq)]
        simp [opsOf, List.filter_cons, h1]
      · simp only [List.foldl_cons, pc_step, if_neg h1, if_neg h2]
        rw [pc_required_map sub sq ts (cc ++ [t])]
        simp [opsOf, List.filter_cons, h1]

theorem pc_fold_cc_ne (sub : String) (sq : List String) :
    ∀ (ts : List String) (cc : List String) (tl : String),
      ts.getLast? = some tl → tl ∉ seq_ops → tl ≠ sub →
      (ts.foldl (pc_step sub sq) ([], cc)).2 ≠ []
  | [], _, _, h, _, _ => by simp at h
  | [t], cc, tl, h, hop, hsub => by
    simp only [List.getLast?_singleton, Option.some.injEq] at h
    subst h
    simp only [List.foldl_cons, List.foldl_nil, pc_step]
    rw [if_neg hop, if_neg hsub]
    simp
  | t :: t2 :: ts, cc, tl, h, hop, hsub => by
    have h2 : (t2 :: ts).getLast? = some tl := by
      rw [List.getLast?_cons_cons] at h
      exact h
    rw [List.foldl_cons, pc_fold_snd sub sq (t2 :: ts) (pc_step sub sq ([], cc) t)]
    exact pc_fold_cc_ne sub sq (t2 :: ts) (pc_step sub sq ([], cc) t).2 tl h2 hop hsub

/-- Claim C3 (counterexample): on the template with tokens a, ampersands, b
(one operator, no trailing operator, non-empty trailing stage) the stage
closed by the operator is required and the stage count is the operator count
plus one, but the trailing stage is built with required False, not True as
the claim states. -/
theorem c3_counterexample :
    (process_commands ⟨["a", "&&", "b"], "\x7b\x7d", false, false, false, 1⟩ ∅).map
        (fun c => (c.args, c.required)) = [(["a"], true), (["b"], false)]
    ∧ (process_commands ⟨["a", "&&", "b"], "\x7b\x7d", false, false, false, 1⟩ ∅).getLast?.map
        Command.required ≠ some true := by
  decide

/-- Claim C3 (amended): for a template whose last token is neither a
sequencing operator nor the substitution token (so the trailing stage is
non-empty), the stage required flags are, in order, one entry per operator
token equal to whether that operator is the double ampersand, followed by
False for the trailing stage (not True as claimed); consequently the stage
count is the operator count plus one. -/
theorem c3_amended_stage_shape (args : Args) (d : Finset String) (tl : String)
    (hlast : args.cmd.getLast? = some tl) (hop : tl ∉ seq_ops) (hsub : tl ≠ args.sub) :
    (process_commands args d).map Command.required
        = (opsOf args.cmd).map (fun t => t == "&&") ++ [false]
    ∧ (process_commands args d).length = (opsOf args.cmd).length + 1 := by
  have hne := pc_fold_cc_ne args.sub ((sortedStrings d).map shlex_quote) args.cmd [] tl
    hlast hop hsub
  have hmap := pc_required_map args.sub ((sortedStrings d).map shlex_quote) args.cmd []
  rw [if_neg hne] at hmap
  have hmain : (process_commands args d).map Command.required
      = (opsOf args.cmd).map (fun t => t == "&&") ++ [false] := hmap
  refine ⟨hmain, ?_⟩
  have hlen := congrArg List.length hmain
  simpa using hlen

/-- Witness for the amended claim C3 at a concrete input: template a,
ampersands, b with an empty changed set. -/
theorem c3_amended_stage_shape_witness :
    (process_commands ⟨["a", "&&", "b"], "\x7b\x7d", false, false, false, 1⟩ ∅).map
        Command.required
        = (opsOf ["a", "&&", "b"]).map (fun t => t == "&&") ++ [false]
    ∧ (process_commands ⟨["a", "&&", "b"], "\x7b\x7d", false, false, false, 1⟩ ∅).length
        = (opsOf ["a", "&&", "b"]).length + 1 :=
  c3_amended_stage_shape ⟨["a", "&&", "b"], "\x7b\x7d", false, false, false, 1⟩ ∅ "b"
    rfl (by decide) (by decide)

theorem pc_fold_no_sub (sub : String) :
    ∀ (ts : List String) (cmds : List Command) (cc : List String),
      (∀ c ∈ cmds, sub ∉ c.args) → sub ∉ cc →
      (∀ c ∈ (ts.foldl (pc_step sub []) (cmds, cc)).1, sub ∉ c.args)
        ∧ sub ∉ (ts.foldl (pc_step sub []) (cmds, cc)).2
  | [], cmds, cc, hcmds, hcc => ⟨hcmds, hcc⟩
  | t :: ts, cmds, cc, hcmds, hcc => by
    by_cases h1 : t ∈ seq_ops
    · simp only [List.foldl_cons, pc_step, h1, if_true]
      refine pc_fold_no_sub sub ts (cmds ++ [Command.mk cc (t == "&&")]) [] ?_ (by simp)
      intro c hc
      rcases List.mem_append.mp hc with h | h
      · exact hcmds c h
      · rw [List.mem_singleton.mp h]
        exact hcc
    · by_cases h2 : t = sub
      · simp only [List.foldl_cons, pc_step, if_neg h1, if_pos h2, List.append_nil]
        exact pc_fold_no_sub sub ts cmds cc hcmds hcc
      · simp only [List.foldl_cons, pc_step, if_neg h1, if_neg h2]
        refine pc_fold_no_sub sub ts cmds (cc ++ [t]) hcmds ?_
        intro hm
        rcases List.mem_append.mp hm with h | h
        · exact hcc h
        · exact h2 (List.mem_singleton.mp h).symm

/-- Claim C10 (counterexample): the claim states the substitution token never
appears in any produced stage. When a changed file name coincides with the
substitution token and survives shlex.quote unchanged (here the safe token
XX), the expansion puts the token itself into the stage. -/
theorem c10_counterexample :
    shlex_quote "XX" = "XX"
    ∧ process_commands ⟨["XX"], "XX", false, false, false, 1⟩ {"XX"} = [⟨["XX"], false⟩]
    ∧ "XX" ∈ ((process_commands ⟨["XX"], "XX", false, false, false, 1⟩ {"XX"}).map
        Command.args).flatten := by
  decide

/-- Claim C10 (amended): with an empty changed-file set the substitution
token expands to zero tokens and never appears in any produced stage (every
literal token that survives is different from it), and in particular the
template echo-then-token builds the single one-token stage echo; with a
non-empty changed set a quoted file name may coincide with the token, so the
unrestricted claim fails. -/
theorem c10_sub_token_gone_when_no_changes :
    (∀ (args : Args), ∀ c ∈ process_commands args ∅, args.sub ∉ c.args)
    ∧ process_commands ⟨["echo", "\x7b\x7d"], "\x7b\x7d", false, false, false, 1⟩ ∅
        = [⟨["echo"], false⟩] := by
  constructor
  · intro args c hc
    have hsq : ((sortedStrings (∅ : Finset String)).map shlex_quote) = [] := rfl
    unfold process_commands at hc
    rw [hsq] at hc
    have h := pc_fold_no_sub args.sub args.cmd [] [] (by simp) (by simp)
    unfold pc_finish at hc
    by_cases hemp : (args.cmd.foldl (pc_step args.sub []) ([], [])).2 = []
    · rw [if_pos hemp] at hc
      exact h.1 c hc
    · rw [if_neg hemp] at hc
      rcases List.mem_append.mp hc with hm | hm
      · exact h.1 c hm
      · rw [List.mem_singleton.mp hm]
        exact h.2
  · decide

/-- Witness for the amended claim C10: the token of the echo-then-token
template does not occur in the built stage. -/
theorem c10_sub_token_gone_when_no_changes_witness :
    ("\x7b\x7d" : String) ∉ (Command.mk ["echo"] false).args :=
  c10_sub_token_gone_when_no_changes.1 ⟨["echo", "\x7b\x7d"], "\x7b\x7d", false, false, false, 1⟩
    (Command.mk ["echo"] false) (by decide)

theorem mem_keys_of_mem (m : MTimes) (k : String) (v : Int) (h : (k, v) ∈ m) :
    k ∈ dictKeys m :=
  List.mem_map.mpr ⟨(k, v), h, rfl⟩

theorem exists_of_mem_keys (m : MTimes) (k : String) (h : k ∈ dictKeys m) :
    ∃ v, (k, v) ∈ m := by
  rcases List.mem_map.mp h with ⟨⟨k0, v⟩, hm, hk⟩
  cases hk
  exact ⟨v, hm⟩

theorem keys_nodup_functional : ∀ (m : MTimes), (dictKeys m).Nodup →
    ∀ k v1 v2, (k, v1) ∈ m → (k, v2) ∈ m → v1 = v2
  | [], _, k, v1, v2, h, _ => by simp at h
  | (k0, v0) :: rest, hnd, k, v1, v2, h1, h2 => by
    have hnd' := List.nodup_cons.mp (hnd : (k0 :: dictKeys rest).Nodup)
    simp only [List.mem_cons] at h1 h2
    rcases h1 with h1 | h1 <;> rcases h2 with h2 | h2
    · rw [Prod.mk.injEq] at h1 h2
      rw [h1.2, h2.2]
    · exfalso
      rw [Prod.mk.injEq] at h1
      exact hnd'.1 (h1.1 ▸ mem_keys_of_mem rest k v2 h2)
    · exfalso
      rw [Prod.mk.injEq] at h2
      exact hnd'.1 (h2.1 ▸ mem_keys_of_mem rest k v1 h1)
    · exact keys_nodup_functional rest hnd'.2 k v1 v2 h1 h2

theorem handle_diff_snd_empty_iff (m1 m2 : MTimes) :
    (handle_diff m1 m2).2 = ∅ ↔ m1.toFinset = m2.toFinset := by
  unfold handle_diff
  simp only [Finset.image_eq_empty]
  rw [← Finset.bot_eq_empty, symmDiff_eq_bot]

theorem assoc_toFinset_eq_iff (m1 m2 : MTimes)
    (_h1 : (dictKeys m1).Nodup) (h2 : (dictKeys m2).Nodup)
    (hk : (dictKeys m1).toFinset = (dictKeys m2).toFinset) :
    m1.toFinset = m2.toFinset ↔ ∀ k v1 v2, (k, v1) ∈ m1 → (k, v2) ∈ m2 → v1 = v2 := by
  constructor
  · intro he k v1 v2 hm1 hm2
    have hm1' : (k, v1) ∈ m2 := by
      rw [← List.mem_toFinset, ← he, List.mem_toFinset]
      exact hm1
    exact keys_nodup_functional m2 h2 k v1 v2 hm1' hm2
  · intro hv
    ext p
    rcases p with ⟨k, v⟩
    simp only [List.mem_toFinset]
    constructor
    · intro hm1
      have hkm : k ∈ dictKeys m2 := by
        have hx : k ∈ (dictKeys m1).toFinset :=
          List.mem_toFinset.mpr (mem_keys_of_mem m1 k v hm1)
        rw [hk] at hx
        exact List.mem_toFinset.mp hx
      rcases exists_of_mem_keys m2 k hkm with ⟨v2, hv2⟩
      rw [hv k v v2 hm1 hv2]
      exact hv2
    · intro hm2
      have hkm : k ∈ dictKeys m1 := by
        have hx : k ∈ (dictKeys m2).toFinset :=
          List.mem_toFinset.mpr (mem_keys_of_mem m2 k v hm2)
        rw [← hk] at hx
        exact List.mem_toFinset.mp hx
      rcases exists_of_mem_keys m1 k hkm with ⟨v1, hv1⟩
      rw [← hv k v1 v hv1 hm2]
      exact hv1

/-- Claim C9: for timestamp dicts over the same path set (with the dict
invariant of unique keys), handle_diff returns an empty changed-path set
precisely when every path carries the same timestamp in both dicts, and
handle_diff is symmetric in its two arguments. -/
theorem c9_diff_empty_iff_same_and_symmetric (m1 m2 : MTimes)
    (h1 : (dictKeys m1).Nodup) (h2 : (dictKeys m2).Nodup)
    (hk : (dictKeys m1).toFinset = (dictKeys m2).toFinset) :
    (((handle_diff m1 m2).2 = ∅) ↔ ∀ k v1 v2, (k, v1) ∈ m1 → (k, v2) ∈ m2 → v1 = v2)
    ∧ handle_diff m1 m2 = handle_diff m2 m1 := by
  refine ⟨(handle_diff_snd_empty_iff m1 m2).trans (assoc_toFinset_eq_iff m1 m2 h1 h2 hk), ?_⟩
  unfold handle_diff
  rw [symmDiff_comm]

/-- Witness for claim C9 at concrete one-entry dicts: equal dicts have an
empty diff, and the diff of two unequal dicts is the same in both orders. -/
theorem c9_diff_empty_iff_same_and_symmetric_witness :
    ((handle_diff [("a", (1 : Int))] [("a", (1 : Int))]).2 = ∅)
    ∧ handle_diff [("a", (1 : Int))] [("a", (2 : Int))]
        = handle_diff [("a", (2 : Int))] [("a", (1 : Int))] := by
  constructor
  · refine (c9_diff_empty_iff_same_and_symmetric [("a", (1 : Int))] [("a", (1 : Int))]
      (by decide) (by decide) rfl).1.mpr ?_
    intro k v1 v2 hm1 hm2
    rw [List.mem_singleton] at hm1 hm2
    rw [Prod.mk.injEq] at hm1 hm2
    rw [hm1.2, hm2.2]
  · exact (c9_diff_empty_iff_same_and_symmetric [("a", (1 : Int))] [("a", (2 : Int))]
      (by decide) (by decide) rfl).2

theorem countGet_countBump_self : ∀ (fl : List (String × Nat)) (f : String),
    countGet (countBump fl f) f = countGet fl f + 1
  | [], f => by simp [countBump, countGet]
  | (k, v) :: rest, f => by
    by_cases h : k = f
    · simp [countBump, countGet, h]
    · simp [countBump, countGet, h, countGet_countBump_self rest f]

theorem countGet_countBump_other : ∀ (fl : List (String × Nat)) (f g : String), g ≠ f →
    countGet (countBump fl f) g = countGet fl g
  | [], f, g, h => by simp [countBump, countGet, Ne.symm h]
  | (k, v) :: rest, f, g, h => by
    by_cases hk : k = f
    · subst hk
      simp only [countBump, if_pos rfl, countGet]
      rw [if_neg (Ne.symm h), if_neg (Ne.symm h)]
    · simp only [countBump, if_neg hk, countGet]
      by_cases hg : k = g
      · rw [if_pos hg, if_pos hg]
      · rw [if_neg hg, if_neg hg, countGet_countBump_other rest f g h]

theorem watch_post_false_fields (s : WatchState) :
    (watch_post false s).mtimes = s.mtimes ∧ (watch_post false s).failed = s.failed
    ∧ (watch_post false s).removed = s.removed
    ∧ (watch_post false s).diff_detected = s.diff_detected
    ∧ (watch_post false s).diff_files = s.diff_files := by
  unfold watch_post
  by_cases h : s.mtimes.isEmpty && !s.disp_msg <;> simp [h]

theorem watch_on_error_spec (s : WatchState) (f : String) :
    (watch_on_error s f).failed = countBump s.failed f
    ∧ (watch_on_error s f).diff_detected = s.diff_detected
    ∧ (watch_on_error s f).diff_files = s.diff_files
    ∧ (if countGet s.failed f + 1 ≥ 10
        then (watch_on_error s f).mtimes = dictDel s.mtimes f
          ∧ (watch_on_error s f).removed = insert f s.removed
        else (watch_on_error s f).mtimes = s.mtimes
          ∧ (watch_on_error s f).removed = s.removed) := by
  unfold watch_on_error
  simp only [countGet_countBump_self]
  by_cases h : countGet s.failed f + 1 ≥ 10 <;> simp [h]

/-- Claim C7 (counterexample): two watched paths a and b both stored with
mtime 0; this cycle the stat of a fails while b stats to mtime 5, a genuine
change. The claim says the poll still fetches and diffs b; the code aborts
the whole dict comprehension at a, so the iteration records nothing about b:
no trigger fires, no diff is detected, the stored mtimes are unchanged, and
only the counter of a is incremented. -/
theorem c7_counterexample :
    wstat7 "b" = some 5
    ∧ dictGet? wstate7.mtimes "b" = some 0
    ∧ (watch_iter wargs wstat7 false wstate7).2 = none
    ∧ (watch_iter wargs wstat7 false wstate7).1.mtimes = [("a", 0), ("b", 0)]
    ∧ (watch_iter wargs wstat7 false wstate7).1.diff_detected = false
    ∧ countGet (watch_iter wargs wstat7 false wstate7).1.failed "a" = 1
    ∧ countGet (watch_iter wargs wstat7 false wstate7).1.failed "b" = 0 := by
  decide

/-- Claim C7 (amended): a stat failure during a poll iteration aborts that
whole poll rather than continuing with the remaining paths: no trigger fires,
the diff bookkeeping is untouched, and the stored mtimes are untouched too
except that the failing path is dropped when its counter reaches 10; exactly
the failing path's FailureCounter is incremented (that part of the claim
holds) and the loop itself proceeds to the next iteration. -/
theorem c7_amended_stat_failure_aborts_poll (args : Args) (stat : String → Option Int)
    (s : WatchState) (f : String)
    (herr : poll_mtimes stat s.mtimes = .error f) :
    (watch_iter args stat false s).2 = none
    ∧ countGet (watch_iter args stat false s).1.failed f = countGet s.failed f + 1
    ∧ (∀ g, g ≠ f → countGet (watch_iter args stat false s).1.failed g = countGet s.failed g)
    ∧ (watch_iter args stat false s).1.diff_detected = s.diff_detected
    ∧ (watch_iter args stat false s).1.diff_files = s.diff_files
    ∧ (if countGet s.failed f + 1 ≥ 10
        then (watch_iter args stat false s).1.mtimes = dictDel s.mtimes f
        else (watch_iter args stat false s).1.mtimes = s.mtimes)
    ∧ (watch_iter args stat false s).1.removed
        = (if countGet s.failed f + 1 ≥ 10 then insert f s.removed else s.removed) := by
  have htry : watch_try args stat s = (watch_on_error s f, none) := by
    unfold watch_try
    rw [herr]
  have hiter : watch_iter args stat false s = (watch_post false (watch_on_error s f), none) := by
    unfold watch_iter
    rw [htry]
  have hst : (watch_iter args stat false s).1 = watch_post false (watch_on_error s f) := by
    rw [hiter]
  have htr : (watch_iter args stat false s).2 = none := by
    rw [hiter]
  obtain ⟨hf, hd, hdf, hcond⟩ := watch_on_error_spec s f
  obtain ⟨pm, pf, pr, pd, pdf⟩ := watch_post_false_fields (watch_on_error s f)
  refine ⟨htr, ?_, ?_, ?_, ?_, ?_, ?_⟩
  · rw [hst, pf, hf, countGet_countBump_self]
  · intro g hg
    rw [hst, pf, hf, countGet_countBump_other s.failed f g hg]
  · rw [hst, pd, hd]
  · rw [hst, pdf, hdf]
  · by_cases h : countGet s.failed f + 1 ≥ 10
    · rw [if_pos h] at hcond ⊢
      rw [hst, pm]
      exact hcond.1
    · rw [if_neg h] at hcond ⊢
      rw [hst, pm]
      exact hcond.1
  · by_cases h : countGet s.failed f + 1 ≥ 10
    · rw [if_pos h] at hcond
      rw [hst, pr, if_pos h]
      exact hcond.2
    · rw [if_neg h] at hcond
      rw [hst, pr, if_neg h]
      exact hcond.2

/-- Witness for the amended claim C7 at the concrete two-path state: the
failing path's counter is bumped and the other path's counter stays 0. -/
theorem c7_amended_stat_failure_aborts_poll_witness :
    (watch_iter wargs wstat7 false wstate7).2 = none
    ∧ countGet (watch_iter wargs wstat7 false wstate7).1.failed "a"
        = countGet wstate7.failed "a" + 1
    ∧ countGet (watch_iter wargs wstat7 false wstate7).1.failed "b"
        = countGet wstate7.failed "b" := by
  obtain ⟨h1, h2, h3, _⟩ :=
    c7_amended_stat_failure_aborts_poll wargs wstat7 wstate7 "a" rfl
  exact ⟨h1, h2, h3 "b" (by decide)⟩

theorem dictKeys_dictDel_subset : ∀ (m : MTimes) (f g : String),
    g ∈ dictKeys (dictDel m f) → g ∈ dictKeys m
  | [], f, g, h => by simp [dictDel, dictKeys] at h
  | (k, v) :: rest, f, g, h => by
    by_cases hk : k = f
    · simp only [dictDel, if_pos hk] at h
      exact List.mem_cons_of_mem _ h
    · simp only [dictDel, if_neg hk] at h
      rcases List.mem_cons.mp (h : g ∈ k :: dictKeys (dictDel rest f)) with rfl | h
      · exact List.mem_cons_self _ _
      · exact List.mem_cons_of_mem _ (dictKeys_dictDel_subset rest f g h)

theorem not_mem_keys_dictDel_self : ∀ (m : MTimes), (dictKeys m).Nodup →
    ∀ f, f ∉ dictKeys (dictDel m f)
  | [], _, f => by simp [dictDel, dictKeys]
  | (k, v) :: rest, hnd, f => by
    have hnd' := List.nodup_cons.mp (hnd : (k :: dictKeys rest).Nodup)
    by_cases hk : k = f
    · simp only [dictDel, if_pos hk]
      exact hk ▸ hnd'.1
    · simp only [dictDel, if_neg hk]
      intro h
      rcases List.mem_cons.mp (h : f ∈ k :: dictKeys (dictDel rest f)) with h | h
      · exact hk h.symm
      · exact not_mem_keys_dictDel_self rest hnd'.2 f h

theorem poll_mtimes_error_only (stat : String → Option Int) (p : String)
    (hp : stat p = none) (ho : ∀ q, q ≠ p → stat q ≠ none) :
    ∀ m : MTimes, p ∈ dictKeys m → poll_mtimes stat m = .error p
  | [], h => by simp [dictKeys] at h
  | (k, v) :: rest, h => by
    by_cases hk : k = p
    · subst hk
      simp [poll_mtimes, hp]
    · rcases hstat : stat k with _ | t
      · exact absurd hstat (ho k hk)
      · have hmem : p ∈ dictKeys rest := by
          rcases List.mem_cons.mp (h : p ∈ k :: dictKeys rest) with h | h
          · exact absurd h.symm hk
          · exact h
        simp only [poll_mtimes, hstat]
        rw [poll_mtimes_error_only stat p hp ho rest hmem]
        rfl

theorem poll_mtimes_ok_keys (stat : String → Option Int) :
    ∀ (m nm : MTimes), poll_mtimes stat m = .ok nm → dictKeys nm = dictKeys m
  | [], nm, h => by
    simp only [poll_mtimes, Except.ok.injEq] at h
    rw [← h]
  | (k, v) :: rest, nm, h => by
    rcases hstat : stat k with _ | t
    · simp [poll_mtimes, hstat] at h
    · simp only [poll_mtimes, hstat] at h
      rcases hrest : poll_mtimes stat rest with f | nm'
      · rw [hrest] at h
        simp [Except.map] at h
      · rw [hrest] at h
        simp only [Except.map, Except.ok.injEq] at h
        rw [← h]
        show k :: dictKeys nm' = k :: dictKeys rest
        rw [poll_mtimes_ok_keys stat rest nm' hrest]

theorem watch_iter_error_fields (args : Args) (stat : String → Option Int) (s : WatchState)
    (f : String) (herr : poll_mtimes stat s.mtimes = .error f) :
    (watch_iter args stat false s).1.failed = countBump s.failed f
    ∧ (if countGet s.failed f + 1 ≥ 10
        then (watch_iter args stat false s).1.mtimes = dictDel s.mtimes f
          ∧ (watch_iter args stat false s).1.removed = insert f s.removed
        else (watch_iter args stat false s).1.mtimes = s.mtimes
          ∧ (watch_iter args stat false s).1.removed = s.removed) := by
  have hiter : watch_iter args stat false s = (watch_post false (watch_on_error s f), none) := by
    unfold watch_iter watch_try
    rw [herr]
  have hst : (watch_iter args stat false s).1 = watch_post false (watch_on_error s f) := by
    rw [hiter]
  obtain ⟨hf, _, _, hcond⟩ := watch_on_error_spec s f
  obtain ⟨pm, pf, pr, _, _⟩ := watch_post_false_fields (watch_on_error s f)
  refine ⟨by rw [hst, pf, hf], ?_⟩
  by_cases h : countGet s.failed f + 1 ≥ 10
  · rw [if_pos h] at hcond ⊢
    exact ⟨by rw [hst, pm]; exact hcond.1, by rw [hst, pr]; exact hcond.2⟩
  · rw [if_neg h] at hcond ⊢
    exact ⟨by rw [hst, pm]; exact hcond.1, by rw [hst, pr]; exact hcond.2⟩

theorem watch_on_ok_fields (args : Args) (s : WatchState) (nm : MTimes) :
    ((watch_on_ok args s nm).1.mtimes = nm ∨ (watch_on_ok args s nm).1.mtimes = s.mtimes)
    ∧ (watch_on_ok args s nm).1.removed = s.removed := by
  unfold watch_on_ok
  dsimp only
  split <;> split <;> split <;> simp

theorem mem_dictSet : ∀ (m : MTimes) (k : String) (v : Int) (e : String × Int),
    e ∈ dictSet m k v → e ∈ m ∨ e = (k, v)
  | [], k, v, e, h => by
    simp only [dictSet, List.mem_singleton] at h
    exact Or.inr h
  | (k0, v0) :: rest, k, v, e, h => by
    by_cases hk : k0 = k
    · simp only [dictSet, if_pos hk] at h
      rcases List.mem_cons.mp h with h | h
      · exact Or.inr (by rw [h, hk])
      · exact Or.inl (List.mem_cons_of_mem _ h)
    · simp only [dictSet, if_neg hk] at h
      rcases List.mem_cons.mp h with h | h
      · exact Or.inl (by rw [h]; exact List.mem_cons_self _ _)
      · rcases mem_dictSet rest k v e h with h | h
        · exact Or.inl (List.mem_cons_of_mem _ h)
        · exact Or.inr h

theorem mem_keys_dictSet_self : ∀ (m : MTimes) (k : String) (v : Int),
    k ∈ dictKeys (dictSet m k v)
  | [], k, v => by simp [dictSet, dictKeys]
  | (k0, v0) :: rest, k, v => by
    by_cases hk : k0 = k
    · simp only [dictSet, if_pos hk]
      exact hk ▸ List.mem_cons_self _ _
    · simp only [dictSet, if_neg hk]
      exact List.mem_cons_of_mem _ (mem_keys_dictSet_self rest k v)

theorem mem_keys_dictSet_mono : ∀ (m : MTimes) (k g : String) (v : Int),
    g ∈ dictKeys m → g ∈ dictKeys (dictSet m k v)
  | [], k, g, v, h => by simp [dictKeys] at h
  | (k0, v0) :: rest, k, g, v, h => by
    by_cases hk : k0 = k
    · simp only [dictSet, if_pos hk]
      exact h
    · simp only [dictSet, if_neg hk]
      rcases List.mem_cons.mp (h : g ∈ k0 :: dictKeys rest) with rfl | h
      · exact List.mem_cons_self _ _
      · exact List.mem_cons_of_mem _ (mem_keys_dictSet_mono rest k g v h)

theorem foldl_dictSet_values : ∀ (l : List String) (m : MTimes),
    (∀ e ∈ m, e.2 = (0 : Int)) →
    ∀ e ∈ l.foldl (fun m f => dictSet m f 0) m, e.2 = 0
  | [], m, hm, e, he => hm e he
  | g :: rest, m, hm, e, he => by
    refine foldl_dictSet_values rest (dictSet m g 0) ?_ e he
    intro e' he'
    rcases mem_dictSet m g 0 e' he' with h | h
    · exact hm e' h
    · rw [h]

theorem foldl_dictSet_keys : ∀ (l : List String) (m : MTimes) (f : String),
    f ∈ l ∨ f ∈ dictKeys m → f ∈ dictKeys (l.foldl (fun m g => dictSet m g 0) m)
  | [], m, f, h => by
    rcases h with h | h
    · simp at h
    · exact h
  | g :: rest, m, f, h => by
    rcases h with h | h
    · rcases List.mem_cons.mp h with rfl | h
      · exact foldl_dictSet_keys rest (dictSet m f 0) f (Or.inr (mem_keys_dictSet_self m f 0))
      · exact foldl_dictSet_keys rest (dictSet m g 0) f (Or.inl h)
    · exact foldl_dictSet_keys rest (dictSet m g 0) f
        (Or.inr (mem_keys_dictSet_mono m g f 0 h))

theorem dictGet?_some_of_mem_keys : ∀ (m : MTimes) (f : String), f ∈ dictKeys m →
    ∃ v, dictGet? m f = some v ∧ (f, v) ∈ m
  | [], f, h => by simp [dictKeys] at h
  | (k, v0) :: rest, f, h => by
    by_cases hk : k = f
    · subst hk
      exact ⟨v0, by simp [dictGet?], List.mem_cons_self _ _⟩
    · have h' : f ∈ dictKeys rest := by
        rcases List.mem_cons.mp (h : f ∈ k :: dictKeys rest) with h | h
        · exact absurd h.symm hk
        · exact h
      rcases dictGet?_some_of_mem_keys rest f h' with ⟨v, hv1, hv2⟩
      exact ⟨v, by simp [dictGet?, hk, hv1], List.mem_cons_of_mem _ hv2⟩

theorem mem_sortedStrings (d : Finset String) (f : String) :
    f ∈ sortedStrings d ↔ f ∈ d := by
  rw [Finset.mem_def]
  unfold sortedStrings
  induction d.val using Quotient.inductionOn with
  | h l =>
    show f ∈ pySorted l ↔ f ∈ Multiset.ofList l
    rw [Multiset.mem_coe]
    exact (List.perm_insertionSort pyLe l).mem_iff

theorem watch_try_quiet (args : Args) (stat : String → Option Int) (s : WatchState)
    (hm : s.mtimes = []) (hforce : s.force = false) (hdd : s.diff_detected = false) :
    watch_try args stat s = ({ s with failed := [] }, none) := by
  unfold watch_try watch_on_ok
  conv_lhs => rw [hm]
  simp [poll_mtimes, hforce, hdd, show handle_diff [] [] = (false, ∅) from rfl]

theorem watch_post_reinstate (s : WatchState) (hm : s.mtimes = []) (hr : s.removed ≠ ∅) :
    (watch_post true s).mtimes = (sortedStrings s.removed).foldl (fun m f => dictSet m f 0) []
    ∧ (watch_post true s).removed = ∅ := by
  unfold watch_post
  dsimp only
  cases hdm : (s.mtimes.isEmpty && !s.disp_msg) <;>
    simp [hdm, hm, hr, handle_removed_files]

theorem watch_post_content (e : Bool) (s : WatchState) :
    ((watch_post e s).mtimes = s.mtimes ∧ (watch_post e s).removed = s.removed)
    ∨ (watch_post e s).removed = ∅ := by
  cases e
  · exact Or.inl ⟨(watch_post_false_fields s).1, (watch_post_false_fields s).2.2.1⟩
  · unfold watch_post
    dsimp only
    cases hdm : (s.mtimes.isEmpty && !s.disp_msg) <;>
      by_cases hre : s.mtimes = [] ∧ s.removed ≠ ∅ <;>
      simp [hdm, hre, handle_removed_files]

theorem watch_try_disjoint (args : Args) (stat : String → Option Int) (s : WatchState)
    (hnd : (dictKeys s.mtimes).Nodup)
    (hdis : ∀ f ∈ s.removed, f ∉ dictKeys s.mtimes) :
    ∀ f ∈ (watch_try args stat s).1.removed, f ∉ dictKeys (watch_try args stat s).1.mtimes := by
  unfold watch_try
  rcases hpoll : poll_mtimes stat s.mtimes with f0 | nm
  · obtain ⟨_, _, _, hcond⟩ := watch_on_error_spec s f0
    by_cases h : countGet s.failed f0 + 1 ≥ 10
    · rw [if_pos h] at hcond
      intro g hg
      rw [hcond.1] at *
      rcases Finset.mem_insert.mp (hcond.2 ▸ hg) with rfl | hg'
      · exact not_mem_keys_dictDel_self s.mtimes hnd g
      · intro hmem
        exact hdis g hg' (dictKeys_dictDel_subset s.mtimes f0 g hmem)
    · rw [if_neg h] at hcond
      intro g hg
      rw [hcond.1]
      exact hdis g (hcond.2 ▸ hg)
  · obtain ⟨hm, hr⟩ := watch_on_ok_fields args s nm
    have hkeys := poll_mtimes_ok_keys stat s.mtimes nm hpoll
    intro g hg
    rcases hm with hm | hm
    · rw [hm, hkeys]
      exact hdis g (hr ▸ hg)
    · rw [hm]
      exact hdis g (hr ▸ hg)

theorem c8_removal_aux (args : Args) (stat : String → Option Int) (p : String)
    (hp : stat p = none) (ho : ∀ q, q ≠ p → stat q ≠ none) :
    ∀ (n : Nat) (s : WatchState), 1 ≤ n → (dictKeys s.mtimes).Nodup →
      p ∈ dictKeys s.mtimes → countGet s.failed p + n = 10 →
      p ∉ dictKeys (iterate_watch args stat n s).mtimes
        ∧ p ∈ (iterate_watch args stat n s).removed := by
  intro n
  induction n with
  | zero => intro s h; omega
  | succ k ih =>
    intro s _ hnd hmem hcnt
    have herr := poll_mtimes_error_only stat p hp ho s.mtimes hmem
    obtain ⟨hf, hcond⟩ := watch_iter_error_fields args stat s p herr
    by_cases hk : k = 0
    · subst hk
      have hge : countGet s.failed p + 1 ≥ 10 := by omega
      rw [if_pos hge] at hcond
      show p ∉ dictKeys (iterate_watch args stat 0 (watch_iter args stat false s).1).mtimes
        ∧ p ∈ (iterate_watch args stat 0 (watch_iter args stat false s).1).removed
      unfold iterate_watch
      rw [hcond.1, hcond.2]
      exact ⟨not_mem_keys_dictDel_self s.mtimes hnd p, Finset.mem_insert_self p s.removed⟩
    · have hlt : ¬ countGet s.failed p + 1 ≥ 10 := by omega
      rw [if_neg hlt] at hcond
      show p ∉ dictKeys (iterate_watch args stat k (watch_iter args stat false s).1).mtimes
        ∧ p ∈ (iterate_watch args stat k (watch_iter args stat false s).1).removed
      refine ih (watch_iter args stat false s).1 (by omega) ?_ ?_ ?_
      · rw [hcond.1]
        exact hnd
      · rw [hcond.1]
        exact hmem
      · rw [hf, countGet_countBump_self]
        omega

theorem watch_try_cases (args : Args) (stat : String → Option Int) (s : WatchState) :
    (∃ f0, poll_mtimes stat s.mtimes = .error f0
        ∧ watch_try args stat s = (watch_on_error s f0, none))
    ∨ (∃ nm, poll_mtimes stat s.mtimes = .ok nm
        ∧ watch_try args stat s = watch_on_ok args s nm) := by
  rcases hpoll : poll_mtimes stat s.mtimes with f0 | nm
  · exact Or.inl ⟨f0, rfl, by unfold watch_try; rw [hpoll]⟩
  · exact Or.inr ⟨nm, rfl, by unfold watch_try; rw [hpoll]⟩

theorem watch_iter_keeps_out (args : Args) (stat : String → Option Int) (s : WatchState)
    (p : String) (hp : p ∉ dictKeys s.mtimes) :
    p ∉ dictKeys (watch_iter args stat false s).1.mtimes := by
  have hiter : (watch_iter args stat false s).1 = watch_post false (watch_try args stat s).1 := rfl
  rw [hiter, (watch_post_false_fields (watch_try args stat s).1).1]
  rcases watch_try_cases args stat s with ⟨f0, _, heq⟩ | ⟨nm, hpoll, heq⟩
  · rw [heq]
    show p ∉ dictKeys (watch_on_error s f0).mtimes
    obtain ⟨_, _, _, hcond⟩ := watch_on_error_spec s f0
    by_cases h : countGet s.failed f0 + 1 ≥ 10
    · rw [if_pos h] at hcond
      rw [hcond.1]
      intro hmem
      exact hp (dictKeys_dictDel_subset s.mtimes f0 p hmem)
    · rw [if_neg h] at hcond
      rw [hcond.1]
      exact hp
  · rw [heq]
    rcases (watch_on_ok_fields args s nm).1 with hm | hm
    · rw [hm, poll_mtimes_ok_keys stat s.mtimes nm hpoll]
      exact hp
    · rw [hm]
      exact hp

theorem watch_iter_reinstates (args : Args) (stat : String → Option Int) (s : WatchState)
    (hm : s.mtimes = []) (hr : s.removed ≠ ∅) (hforce : s.force = false)
    (hdd : s.diff_detected = false) :
    (∀ f ∈ s.removed, dictGet? (watch_iter args stat true s).1.mtimes f = some 0)
    ∧ (watch_iter args stat true s).1.removed = ∅ := by
  have h1 : (watch_iter args stat true s).1 = watch_post true { s with failed := [] } := by
    show watch_post true (watch_try args stat s).1 = _
    rw [watch_try_quiet args stat s hm hforce hdd]
  have hm' : ({ s with failed := ([] : List (String × Nat)) } : WatchState).mtimes = [] := hm
  have hr' : ({ s with failed := ([] : List (String × Nat)) } : WatchState).removed ≠ ∅ := hr
  obtain ⟨hmt, hrv⟩ := watch_post_reinstate { s with failed := [] } hm' hr'
  have hsr : ({ s with failed := ([] : List (String × Nat)) } : WatchState).removed
      = s.removed := rfl
  constructor
  · intro f hf
    rw [h1, hmt, hsr]
    have hkeys : f ∈ dictKeys ((sortedStrings s.removed).foldl (fun m g => dictSet m g 0) []) :=
      foldl_dictSet_keys (sortedStrings s.removed) [] f
        (Or.inl ((mem_sortedStrings s.removed f).mpr hf))
    rcases dictGet?_some_of_mem_keys _ f hkeys with ⟨v, hv1, hv2⟩
    have hv0 : v = 0 :=
      foldl_dictSet_values (sortedStrings s.removed) [] (by simp) (f, v) hv2
    rw [hv1, hv0]
  · rw [h1, hrv]

theorem watch_iter_disjoint (args : Args) (stat : String → Option Int) (enter : Bool)
    (s : WatchState) (hnd : (dictKeys s.mtimes).Nodup)
    (hdis : ∀ f ∈ s.removed, f ∉ dictKeys s.mtimes) :
    ∀ f ∈ (watch_iter args stat enter s).1.removed,
      f ∉ dictKeys (watch_iter args stat enter s).1.mtimes := by
  have h1 : (watch_iter args stat enter s).1 = watch_post enter (watch_try args stat s).1 := rfl
  rw [h1]
  have htry := watch_try_disjoint args stat s hnd hdis
  rcases watch_post_content enter (watch_try args stat s).1 with ⟨hm, hr⟩ | hr
  · rw [hm, hr]
    exact htry
  · rw [hr]
    intro f hf
    exact absurd hf (Finset.not_mem_empty f)

/-- Claim C8: a path whose stat fails ten consecutive poll cycles (while every
other path still stats) is removed from the watch dict and recorded in the
removed set; a path absent from the watch dict stays absent over further
keypress-free cycles, so it is never polled again; an operator keypress in a
quiet state whose watch dict is empty and removed set non-empty reinstates
every removed path with the sentinel timestamp 0 and empties the removed set;
and every watch iteration preserves the invariant that no removed path is
simultaneously watched, so a path is never in both sets at once. -/
theorem c8_removal_reinstatement_disjointness :
    (∀ (args : Args) (stat : String → Option Int) (p : String), stat p = none →
        (∀ q, q ≠ p → stat q ≠ none) →
        ∀ s : WatchState, (dictKeys s.mtimes).Nodup → p ∈ dictKeys s.mtimes →
          countGet s.failed p = 0 →
          p ∉ dictKeys (iterate_watch args stat 10 s).mtimes
            ∧ p ∈ (iterate_watch args stat 10 s).removed)
    ∧ (∀ (args : Args) (stat : String → Option Int) (s : WatchState) (p : String),
        p ∉ dictKeys s.mtimes → p ∉ dictKeys (watch_iter args stat false s).1.mtimes)
    ∧ (∀ (args : Args) (stat : String → Option Int) (s : WatchState),
        s.mtimes = [] → s.removed ≠ ∅ → s.force = false → s.diff_detected = false →
        (∀ f ∈ s.removed, dictGet? (watch_iter args stat true s).1.mtimes f = some 0)
          ∧ (watch_iter args stat true s).1.removed = ∅)
    ∧ (∀ (args : Args) (stat : String → Option Int) (enter : Bool) (s : WatchState),
        (dictKeys s.mtimes).Nodup → (∀ f ∈ s.removed, f ∉ dictKeys s.mtimes) →
        ∀ f ∈ (watch_iter args stat enter s).1.removed,
          f ∉ dictKeys (watch_iter args stat enter s).1.mtimes) := by
  refine ⟨?_, ?_, ?_, ?_⟩
  · intro args stat p hp ho s hnd hmem hcnt
    exact c8_removal_aux args stat p hp ho 10 s (by omega) hnd hmem (by omega)
  · intro args stat s p hp
    exact watch_iter_keeps_out args stat s p hp
  · intro args stat s hm hr hforce hdd
    exact watch_iter_reinstates args stat s hm hr hforce hdd
  · intro args stat enter s hnd hdis
    exact watch_iter_disjoint args stat enter s hnd hdis

/-- Witness for claim C8: with the oracle that fails only on path a, ten
cycles starting from the two-path state remove a and record it; and a
keypress on the empty-watch state with removed set containing a reinstates a
at timestamp 0 and empties the removed set. -/
theorem c8_removal_reinstatement_disjointness_witness :
    ("a" ∉ dictKeys (iterate_watch wargs wstat7 10 wstate7).mtimes
      ∧ "a" ∈ (iterate_watch wargs wstat7 10 wstate7).removed)
    ∧ dictGet? (watch_iter wargs wstat7 true wstate8).1.mtimes "a" = some 0
    ∧ (watch_iter wargs wstat7 true wstate8).1.removed = ∅ := by
  obtain ⟨h1, _, h3, _⟩ := c8_removal_reinstatement_disjointness
  refine ⟨h1 wargs wstat7 "a" rfl (fun q hq => by simp [wstat7, hq]) wstate7
      (by decide) (by decide) rfl, ?_, ?_⟩
  · exact (h3 wargs wstat7 wstate8 rfl (by decide) rfl rfl).1 "a" (by decide)
  · exact (h3 wargs wstat7 wstate8 rfl (by decide) rfl rfl).2

end Onmod
